import Mathlib

/-!
Shallow embedding of the CodaLab worker (`worker.py`) and one command of the
CLI front-end (`bundle_cli.py`), together with proofs of the specification
claims about them.

CPU cores and GPU devices are identified by natural numbers; the worker's
free pools are `Finset ℕ`.  Python's `set.pop()` removes and returns an
*arbitrary* element of the set, so the embedding is parameterised by a pop
policy `pick : Finset ℕ → ℕ`, constrained only by `validPick` (on a nonempty
set it returns a member).  Concrete policies `pickMin` and `pickMax` are both
legitimate refinements of `set.pop`.
-/

namespace CodalabWorker

/-- The worker's free resource pools: `self._cpuset_free` and
`self._gpuset_free` from `worker.py`. -/
structure Pool where
  cpuset_free : Finset ℕ
  gpuset_free : Finset ℕ
deriving DecidableEq

/-- A pop policy models Python's `set.pop`: it must return a member of any
nonempty set.  Which member is returned is implementation defined. -/
def validPick (pick : Finset ℕ → ℕ) : Prop :=
  ∀ s : Finset ℕ, s.Nonempty → pick s ∈ s

/-- One legitimate `set.pop` behaviour: always return the smallest element. -/
def pickMin (s : Finset ℕ) : ℕ :=
  if h : s.Nonempty then s.min' h else 0

/-- Another legitimate `set.pop` behaviour: always return the largest
element.  (Even CPython's `set.pop` can return a non-minimal element, e.g.
on `{1, 8}` it returns `8`.) -/
def pickMax (s : Finset ℕ) : ℕ :=
  if h : s.Nonempty then s.max' h else 0

/-- Pop `n` elements one at a time from a finite set, as the loop
`for i in range(n): out.add(free.pop())` does.  Returns the popped
elements and the remaining set. -/
def popN (pick : Finset ℕ → ℕ) : ℕ → Finset ℕ → Finset ℕ × Finset ℕ
  | 0, s => (∅, s)
  | n + 1, s =>
    let x := pick s
    let p := popN pick n (s.erase x)
    (insert x p.1, p.2)

/-- `Worker._allocate_cpu_and_gpu_sets(request_cpus, request_gpus)`.
Returns the allocated `(cpuset, gpuset)` (empty sets when allocation is
unsuccessful) together with the updated pool. -/
def allocate_cpu_and_gpu_sets (pick : Finset ℕ → ℕ) (st : Pool)
    (request_cpus request_gpus : ℕ) : (Finset ℕ × Finset ℕ) × Pool :=
  if st.cpuset_free.card < request_cpus ∨ st.gpuset_free.card < request_gpus then
    ((∅, ∅), st)
  else
    let pc := popN pick request_cpus st.cpuset_free
    let pg := popN pick request_gpus st.gpuset_free
    ((pc.1, pg.1), ⟨pc.2, pg.2⟩)

/-- `Worker._deallocate_cpu_and_sets(cpuset, gpuset)`: re-add both sets to
the free pools by set union. -/
def deallocate_cpu_and_sets (st : Pool) (cpuset gpuset : Finset ℕ) : Pool :=
  ⟨st.cpuset_free ∪ cpuset, st.gpuset_free ∪ gpuset⟩

/-- What `Worker._run` does with an assignment, as far as resource
accounting goes. -/
inductive RunOutcome where
  | dropped
  | started (cpuset gpuset : Finset ℕ)
  | startFailed
deriving DecidableEq

/-- `Worker._run(bundle, resources)`, restricted to its resource accounting:
allocate; if both returned sets are empty, log and drop the assignment;
otherwise construct the Run, and if `run.run()` fails (`run_starts = false`)
deallocate the sets again. -/
def run_handler (pick : Finset ℕ → ℕ) (run_starts : Bool) (st : Pool)
    (request_cpus request_gpus : ℕ) : RunOutcome × Pool :=
  let r := allocate_cpu_and_gpu_sets pick st request_cpus request_gpus
  if r.1.1.card = 0 ∧ r.1.2.card = 0 then
    (.dropped, r.2)
  else if run_starts then
    (.started r.1.1 r.1.2, r.2)
  else
    (.startFailed, deallocate_cpu_and_sets r.2 r.1.1 r.1.2)

/-- `Worker._is_exiting`: read the `_exiting` flag under its lock. -/
def is_exiting (exiting : Bool) : Bool := exiting

/-- `Worker._should_run`: `if not self._is_exiting(): return True` then
`return self._worker_state_manager.has_runs()`. -/
def should_run (exiting has_runs : Bool) : Bool :=
  if !(is_exiting exiting) then true else has_runs

/-! ### Allocation / release sequences (for the conservation invariant)

The worker state tracked here is the free pool plus the list of `(cpuset,
gpuset)` pairs held by live runs.  An `alloc` step is `_run`'s accounting on
a successful `run.run()`: allocate, and keep the pair as live unless both
returned sets are empty (in which case `_run` drops the assignment).  A
`release i` step is `_deallocate_cpu_and_sets` on the sets of live run `i`,
which then ceases to be live. -/

structure WState where
  pool : Pool
  live : List (Finset ℕ × Finset ℕ)

/-- One call in a sequence of allocations and releases. -/
inductive PoolOp where
  | alloc (request_cpus request_gpus : ℕ)
  | release (i : ℕ)

/-- Execute one `PoolOp` against the worker state. -/
def stepOp (pick : Finset ℕ → ℕ) (st : WState) : PoolOp → WState
  | .alloc nc ng =>
    let r := allocate_cpu_and_gpu_sets pick st.pool nc ng
    if r.1.1.card = 0 ∧ r.1.2.card = 0 then
      { st with pool := r.2 }
    else
      ⟨r.2, r.1 :: st.live⟩
  | .release i =>
    match st.live.get? i with
    | none => st
    | some p => ⟨deallocate_cpu_and_sets st.pool p.1 p.2, st.live.eraseIdx i⟩

/-- Union of the cpusets held by live runs. -/
def cpuUnion (l : List (Finset ℕ × Finset ℕ)) : Finset ℕ :=
  l.foldr (fun p acc => p.1 ∪ acc) ∅

/-- Union of the gpusets held by live runs. -/
def gpuUnion (l : List (Finset ℕ × Finset ℕ)) : Finset ℕ :=
  l.foldr (fun p acc => p.2 ∪ acc) ∅

/-- The resource-conservation invariant: the free pool together with the
live runs' sets partitions the configured total, for cpus and for gpus. -/
structure Inv (total_c total_g : Finset ℕ) (st : WState) : Prop where
  cpu_cover : st.pool.cpuset_free ∪ cpuUnion st.live = total_c
  gpu_cover : st.pool.gpuset_free ∪ gpuUnion st.live = total_g
  cpu_disj_free : ∀ p ∈ st.live, Disjoint st.pool.cpuset_free p.1
  gpu_disj_free : ∀ p ∈ st.live, Disjoint st.pool.gpuset_free p.2
  cpu_pairwise : st.live.Pairwise fun p q => Disjoint p.1 q.1
  gpu_pairwise : st.live.Pairwise fun p q => Disjoint p.2 q.2

/-! ### Dependency download (`add_dependency` / `_store_dependency`)

The on-disk state at `dependency_path` is abstracted to a `Bool` (does
anything exist there?).  The un-tar / copy attempt is abstracted to a
function `attempt : Bool → Bool × Option E`: it may leave bytes at the path
and may raise an exception `e : E`.  `file_util.remove_path` deletes
whatever is at the path. -/

/-- `file_util.remove_path`: after it, nothing exists at the path. -/
def remove_path (_fs : Bool) : Bool := false

/-- `Worker._store_dependency`: run the un-tar / copy attempt; on any
exception remove the path and re-raise. -/
def store_dependency (E : Type) (attempt : Bool → Bool × Option E) (fs : Bool) :
    Bool × Option E :=
  let r := attempt fs
  match r.2 with
  | none => r
  | some e => (remove_path r.1, some e)

/-- The observable result of `Worker.add_dependency`: the exception it
raised (if any), the final on-disk state at the dependency path, and the
`success` arguments of the `finish_download` calls it made, in order. -/
structure AddDepResult (E : Type) where
  raised : Option E
  fs : Bool
  finish_download_calls : List Bool
deriving DecidableEq

/-- `Worker.add_dependency`, given: whether the dependency manager said the
caller must download (`should_download`), whether `get_bundle_contents`
raises (`fetch = some e`), and the store attempt.  The `try/finally` makes
exactly one `finish_download` call on every download, with `success` set
only after `_store_dependency` returned. -/
def add_dependency (E : Type) (should_download : Bool) (fetch : Option E)
    (attempt : Bool → Bool × Option E) (fs : Bool) : AddDepResult E :=
  if should_download then
    match fetch with
    | some e => ⟨some e, fs, [false]⟩
    | none =>
      let r := store_dependency E attempt fs
      match r.2 with
      | none => ⟨none, r.1, [true]⟩
      | some e => ⟨some e, r.1, [false]⟩
  else ⟨none, fs, []⟩

/-! ### The wrapped stream read with progress callback

The download stream is a list of chunk sizes.  `interruptable_read` wraps
the stream's `read`: after each chunk it adds the chunk length to the
running total and invokes `loop_callback` with the cumulative byte count;
if the callback raises, the exception propagates out of the read loop. -/

/-- Cumulative byte counts after each chunk, starting from `acc` bytes. -/
def cumulative_from (acc : ℕ) : List ℕ → List ℕ
  | [] => []
  | sz :: rest => (acc + sz) :: cumulative_from (acc + sz) rest

/-- Drive the wrapped `read` over the whole stream.  Returns the list of
arguments passed to `loop_callback` and the exception the callback raised,
if any (reading stops at the first such exception). -/
def interruptable_read (E : Type) (cb : ℕ → Option E) (acc : ℕ) :
    List ℕ → List ℕ × Option E
  | [] => ([], none)
  | sz :: rest =>
    let acc2 := acc + sz
    match cb acc2 with
    | some e => ([acc2], some e)
    | none =>
      let r := interruptable_read E cb acc2 rest
      (acc2 :: r.1, r.2)

/-- The store attempt induced by copying the wrapped stream: bytes may be
left at the path, and the attempt raises exactly when some callback
invocation raised. -/
def store_via_stream (E : Type) (cb : ℕ → Option E) (chunks : List ℕ) :
    Bool → Bool × Option E :=
  fun _ => (true, (interruptable_read E cb 0 chunks).2)

/-! ### Check-in message dispatch and the upgrade path -/

/-- The tagged union of server responses to a check-in (payloads elided;
only the flag effects matter here). -/
inductive ServerMessage where
  | runMsg
  | readMsg
  | netcatMsg
  | writeMsg
  | killMsg
  | upgradeMsg
deriving DecidableEq

/-- The two flags `Worker._checkin` can set. -/
structure WorkerFlags where
  exiting : Bool
  should_upgrade : Bool
deriving DecidableEq

/-- The effect of `Worker._checkin`'s dispatch on the `_exiting` and
`_should_upgrade` flags: only the `upgrade` message touches them, setting
both. -/
def checkin_handle_message (st : WorkerFlags) : ServerMessage → WorkerFlags
  | .upgradeMsg => ⟨true, true⟩
  | _ => st

/-- Observable events of the worker's post-loop code and of `_upgrade`. -/
inductive WorkerEvent where
  | checkout
  | saveState
  | attemptFailed
  | sleep (seconds : ℕ)
  | replaceDir (code : ℕ)
  | exited (code : ℕ)
deriving DecidableEq

/-- The `while True` retry loop of `Worker._upgrade`, with explicit fuel and
attempt index.  Attempt `i` either yields the code tarball (`some code`) or
raises (`none`); on failure the worker logs, sleeps 1 second, and retries;
on success it replaces its own code directory with the tarball contents and
exits with code 123. -/
def upgrade_loop_trace (attempts : ℕ → Option ℕ) : ℕ → ℕ → List WorkerEvent
  | 0, _ => []
  | fuel + 1, i =>
    match attempts i with
    | some code => [.replaceDir code, .exited 123]
    | none => .attemptFailed :: .sleep 1 :: upgrade_loop_trace attempts fuel (i + 1)

/-- What `Worker.run` does after its main loop terminates: check out, save
state, and, when `_should_upgrade` is set, run `_upgrade`. -/
def run_postlude (should_upgrade : Bool) (attempts : ℕ → Option ℕ) (fuel : ℕ) :
    List WorkerEvent :=
  .checkout :: .saveState ::
    (if should_upgrade then upgrade_loop_trace attempts fuel 0 else [])

/-! ### The check-in retry loop of `Worker.run` -/

/-- The observable behaviour of one iteration of `Worker.run`'s main loop:
whether the try-body (check-in and state save) succeeded, whether
`Connected! Successful check in.` was logged, and whether the except-branch
slept one second. -/
structure CheckinIter where
  checkin_succeeded : Bool
  logged_connected : Bool
  slept_one : Bool
deriving DecidableEq

/-- Run the main loop over a list of iteration outcomes, threading the
`_last_checkin_successful` flag: on success, log restored connectivity iff
the flag was unset, then set it; on failure, clear it and sleep 1 second. -/
def checkin_loop (last_checkin_successful : Bool) : List Bool → List CheckinIter
  | [] => []
  | ok :: rest =>
    ⟨ok, ok && !last_checkin_successful, !ok⟩ :: checkin_loop ok rest

/-! ### The `rm_user` command of `bundle_cli.py` -/

/-- The record returned by `client.rm_user` when the user was a member. -/
structure UserInfo where
  name : String
  group_uuid : String

/-- A Python runtime error. -/
inductive PyError where
  | typeError
deriving DecidableEq

/-- `BundleCLI.do_rm_user_command`, after argument parsing: given the
result of `client.rm_user`.  In the source, the `user_info is None` branch
formats its message with `user_info['name']` and `user_info['group_uuid']`;
subscripting `None` raises `TypeError` before anything is printed. -/
def do_rm_user_command (user_info : Option UserInfo) : Except PyError String :=
  match user_info with
  | none => .error .typeError
  | some u => .ok ("Removed " ++ u.name ++ " from group " ++ u.group_uuid ++ ".")

/-! ## Helper lemmas -/

theorem pickMin_valid : validPick pickMin := by
  intro s hs
  simp only [pickMin, dif_pos hs]
  exact s.min'_mem hs

theorem pickMax_valid : validPick pickMax := by
  intro s hs
  simp only [pickMax, dif_pos hs]
  exact s.max'_mem hs

theorem popN_spec (pick : Finset ℕ → ℕ) (hpick : validPick pick) :
    ∀ (n : ℕ) (s : Finset ℕ), n ≤ s.card →
      (popN pick n s).1.card = n ∧ (popN pick n s).1 ⊆ s ∧
        (popN pick n s).2 = s \ (popN pick n s).1 := by
  intro n
  induction n with
  | zero =>
    intro s _
    refine ⟨Finset.card_empty, Finset.empty_subset s, ?_⟩
    simp [popN]
  | succ n ih =>
    intro s hs
    have hne : s.Nonempty := by
      rw [← Finset.card_pos]
      omega
    have hx : pick s ∈ s := hpick s hne
    have hcard : n ≤ (s.erase (pick s)).card := by
      rw [Finset.card_erase_of_mem hx]
      omega
    obtain ⟨h1, h2, h3⟩ := ih (s.erase (pick s)) hcard
    have hxnot : pick s ∉ (popN pick n (s.erase (pick s))).1 := fun hmem =>
      (Finset.not_mem_erase (pick s) s) (h2 hmem)
    refine ⟨?_, ?_, ?_⟩
    · simpa [popN, Finset.card_insert_of_not_mem hxnot] using h1
    · intro a ha
      simp only [popN, Finset.mem_insert] at ha
      rcases ha with rfl | ha
      · exact hx
      · exact Finset.erase_subset (pick s) s (h2 ha)
    · show (popN pick n (s.erase (pick s))).2 = _
      rw [h3]
      ext a
      simp only [popN, Finset.mem_sdiff, Finset.mem_erase, Finset.mem_insert]
      tauto

/-! ## Claim theorems -/

/-- C6: the main-loop guard `_should_run` returns true iff either no drain
has been requested (the exiting flag is false) or at least one live run
remains; equivalently, it returns false exactly when a drain has been
requested and no live runs remain. -/
theorem should_run_iff (exiting has_runs : Bool) :
    (should_run exiting has_runs = true ↔ (exiting = false ∨ has_runs = true))
    ∧ (should_run exiting has_runs = false ↔ (exiting = true ∧ has_runs = false)) := by
  cases exiting <;> cases has_runs <;> simp [should_run, is_exiting]

/-- C7: when an allocation request cannot be satisfied (fewer free cpus than
requested or fewer free gpus than requested), `_allocate_cpu_and_gpu_sets`
returns empty sets and leaves both free pools unchanged. -/
theorem allocate_failure_frame (pick : Finset ℕ → ℕ) (st : Pool)
    (request_cpus request_gpus : ℕ)
    (h : st.cpuset_free.card < request_cpus ∨ st.gpuset_free.card < request_gpus) :
    allocate_cpu_and_gpu_sets pick st request_cpus request_gpus = ((∅, ∅), st) := by
  simp only [allocate_cpu_and_gpu_sets, if_pos h]

theorem allocate_failure_frame_witness :
    allocate_cpu_and_gpu_sets pickMin ⟨{0}, ∅⟩ 2 0 = ((∅, ∅), ⟨{0}, ∅⟩) :=
  allocate_failure_frame pickMin ⟨{0}, ∅⟩ 2 0 (Or.inl (by decide))

/-- C9: for a run assignment requesting zero cpus and zero gpus, the
allocation succeeds trivially returning two empty sets with the pool
untouched, yet `_run` treats the pair of empty sets as an allocation failure
and drops the assignment: no Run is created or started. -/
theorem zero_request_run_dropped (pick : Finset ℕ → ℕ) (run_starts : Bool)
    (st : Pool) :
    run_handler pick run_starts st 0 0 = (.dropped, st)
      ∧ allocate_cpu_and_gpu_sets pick st 0 0 = ((∅, ∅), st) := by
  obtain ⟨c, g⟩ := st
  have halloc : allocate_cpu_and_gpu_sets pick ⟨c, g⟩ 0 0 = ((∅, ∅), ⟨c, g⟩) := by
    simp [allocate_cpu_and_gpu_sets, popN]
  exact ⟨by simp [run_handler, halloc], halloc⟩

/-- C10: with the user absent from the group (`client.rm_user` returns
`None`), `do_rm_user_command` raises `TypeError` by subscripting `None`
instead of reporting a no-op. -/
theorem rm_user_absent_crashes :
    do_rm_user_command none = .error .typeError := rfl

/-- C2 counterexample: the allocated members are NOT always the
lowest-indexed free ones.  `pickMax` is a legitimate behaviour of Python's
`set.pop` (`validPick pickMax` holds), and with it, allocating one cpu from
the free set `{0, 1}` yields `{1}`, not the lowest-indexed `{0}`. -/
theorem allocate_pop_not_lowest_indexed :
    validPick pickMax
      ∧ (allocate_cpu_and_gpu_sets pickMax ⟨{0, 1}, ∅⟩ 1 0).1.1 = {1}
      ∧ ({1} : Finset ℕ) ≠ {0} :=
  ⟨pickMax_valid, by decide, by decide⟩

/-- C2 (amended): for any valid pop policy, `_allocate_cpu_and_gpu_sets`
succeeds — returning a cpu set of size `request_cpus` and a gpu set of size
`request_gpus`, both drawn from the free sets, the free sets shrinking by
exactly the returned members — if and only if the free cpu set has at least
`request_cpus` members and the free gpu set has at least `request_gpus`
members.  (The members chosen are arbitrary elements of the free sets, not
necessarily the lowest-indexed ones.) -/
theorem allocate_success_iff_sufficient (pick : Finset ℕ → ℕ)
    (hpick : validPick pick) (free_c free_g : Finset ℕ) (nc ng : ℕ) :
    ((allocate_cpu_and_gpu_sets pick ⟨free_c, free_g⟩ nc ng).1.1.card = nc
      ∧ (allocate_cpu_and_gpu_sets pick ⟨free_c, free_g⟩ nc ng).1.2.card = ng
      ∧ (allocate_cpu_and_gpu_sets pick ⟨free_c, free_g⟩ nc ng).1.1 ⊆ free_c
      ∧ (allocate_cpu_and_gpu_sets pick ⟨free_c, free_g⟩ nc ng).1.2 ⊆ free_g
      ∧ (allocate_cpu_and_gpu_sets pick ⟨free_c, free_g⟩ nc ng).2
          = ⟨free_c \ (allocate_cpu_and_gpu_sets pick ⟨free_c, free_g⟩ nc ng).1.1,
             free_g \ (allocate_cpu_and_gpu_sets pick ⟨free_c, free_g⟩ nc ng).1.2⟩)
    ↔ (nc ≤ free_c.card ∧ ng ≤ free_g.card) := by
  by_cases h : free_c.card < nc ∨ free_g.card < ng
  · have hfail :
        allocate_cpu_and_gpu_sets pick ⟨free_c, free_g⟩ nc ng
          = ((∅, ∅), ⟨free_c, free_g⟩) := by
      simp only [allocate_cpu_and_gpu_sets, if_pos h]
    rw [hfail]
    simp only [Finset.card_empty, Finset.empty_subset, Finset.sdiff_empty,
      and_true, true_and]
    omega
  · have hle : nc ≤ free_c.card ∧ ng ≤ free_g.card := by omega
    have hsucc :
        allocate_cpu_and_gpu_sets pick ⟨free_c, free_g⟩ nc ng
          = (((popN pick nc free_c).1, (popN pick ng free_g).1),
             ⟨(popN pick nc free_c).2, (popN pick ng free_g).2⟩) := by
      simp only [allocate_cpu_and_gpu_sets, if_neg h]
    obtain ⟨hc1, hc2, hc3⟩ := popN_spec pick hpick nc free_c hle.1
    obtain ⟨hg1, hg2, hg3⟩ := popN_spec pick hpick ng free_g hle.2
    rw [hsucc]
    simp [hc1, hc2, hc3, hg1, hg2, hg3, hle.1, hle.2]

theorem allocate_success_iff_sufficient_witness :
    (allocate_cpu_and_gpu_sets pickMin ⟨{0, 1, 2}, {5}⟩ 2 1).1.1.card = 2
      ∧ (allocate_cpu_and_gpu_sets pickMin ⟨{0, 1, 2}, {5}⟩ 2 1).1.2.card = 1
      ∧ (allocate_cpu_and_gpu_sets pickMin ⟨{0, 1, 2}, {5}⟩ 2 1).1.1 ⊆ {0, 1, 2}
      ∧ (allocate_cpu_and_gpu_sets pickMin ⟨{0, 1, 2}, {5}⟩ 2 1).1.2 ⊆ {5}
      ∧ (allocate_cpu_and_gpu_sets pickMin ⟨{0, 1, 2}, {5}⟩ 2 1).2
          = ⟨({0, 1, 2} : Finset ℕ) \ (allocate_cpu_and_gpu_sets pickMin ⟨{0, 1, 2}, {5}⟩ 2 1).1.1,
             ({5} : Finset ℕ) \ (allocate_cpu_and_gpu_sets pickMin ⟨{0, 1, 2}, {5}⟩ 2 1).1.2⟩ :=
  (allocate_success_iff_sufficient pickMin pickMin_valid {0, 1, 2} {5} 2 1).mpr
    (by decide)

/-- C3: if the store attempt raises, `_store_dependency` removes the partial
file at the dependency path and propagates the exception; `add_dependency`
then fails with that exception having called `finish_download` with
`success = false`; and whenever `add_dependency` must download, it calls
`finish_download` exactly once, with `success` true iff no exception was
raised. -/
theorem add_dependency_failure_cleanup (E : Type) (attempt : Bool → Bool × Option E)
    (fs : Bool) (e : E) (hfail : (attempt fs).2 = some e) :
    store_dependency E attempt fs = (false, some e)
      ∧ (add_dependency E true none attempt fs).raised = some e
      ∧ (add_dependency E true none attempt fs).fs = false
      ∧ (add_dependency E true none attempt fs).finish_download_calls = [false]
      ∧ (∀ (fetch : Option E) (attempt2 : Bool → Bool × Option E),
          (add_dependency E true fetch attempt2 fs).finish_download_calls.length = 1)
      ∧ (∀ (fetch : Option E) (attempt2 : Bool → Bool × Option E),
          (add_dependency E true fetch attempt2 fs).finish_download_calls
            = [(add_dependency E true fetch attempt2 fs).raised.isNone]) := by
  have hs : store_dependency E attempt fs = (false, some e) := by
    simp [store_dependency, hfail, remove_path]
  refine ⟨hs, ?_, ?_, ?_, ?_, ?_⟩
  · simp [add_dependency, hs]
  · simp [add_dependency, hs]
  · simp [add_dependency, hs]
  · intro fetch attempt2
    cases fetch with
    | some e2 => simp [add_dependency]
    | none =>
      cases h2 : (store_dependency E attempt2 fs).2 <;> simp [add_dependency, h2]
  · intro fetch attempt2
    cases fetch with
    | some e2 => simp [add_dependency]
    | none =>
      cases h2 : (store_dependency E attempt2 fs).2 <;> simp [add_dependency, h2]

theorem add_dependency_failure_cleanup_witness :
    store_dependency ℕ (fun _ => (true, some 42)) true = (false, some 42)
      ∧ (add_dependency ℕ true none (fun _ => (true, some 42)) true).fs = false
      ∧ (add_dependency ℕ true none (fun _ => (true, some 42)) true).finish_download_calls
          = [false] := by
  obtain ⟨h1, -, h3, h4, -, -⟩ :=
    add_dependency_failure_cleanup ℕ (fun _ => (true, some 42)) true 42 rfl
  exact ⟨h1, h3, h4⟩

/-- Trace of the wrapped read, with the running byte count generalised. -/
theorem interruptable_read_trace (E : Type) (cb : ℕ → Option E) :
    ∀ (chunks : List ℕ) (acc : ℕ),
      ((interruptable_read E cb acc chunks).1
          = (cumulative_from acc chunks).take (interruptable_read E cb acc chunks).1.length)
      ∧ ((interruptable_read E cb acc chunks).2 = none →
          (interruptable_read E cb acc chunks).1 = cumulative_from acc chunks)
      ∧ (∀ e, (interruptable_read E cb acc chunks).2 = some e →
          ∃ pre c, (interruptable_read E cb acc chunks).1 = pre ++ [c]
            ∧ cb c = some e ∧ ∀ x ∈ pre, cb x = none) := by
  intro chunks
  induction chunks with
  | nil =>
    intro acc
    simp [interruptable_read, cumulative_from]
  | cons sz rest ih =>
    intro acc
    obtain ⟨ih1, ih2, ih3⟩ := ih (acc + sz)
    cases hcb : cb (acc + sz) with
    | some e =>
      refine ⟨?_, ?_, ?_⟩
      · simp [interruptable_read, hcb, cumulative_from]
      · simp [interruptable_read, hcb]
      · intro e2 he2
        refine ⟨[], acc + sz, ?_, ?_, by simp⟩
        · simp [interruptable_read, hcb]
        · simp only [interruptable_read, hcb] at he2
          rw [hcb, he2]
    | none =>
      refine ⟨?_, ?_, ?_⟩
      · simp only [interruptable_read, hcb, cumulative_from, List.length_cons,
          List.take_succ_cons]
        exact congrArg _ ih1
      · intro hnone
        simp only [interruptable_read, hcb] at hnone ⊢
        rw [cumulative_from, ih2 hnone]
      · intro e he
        simp only [interruptable_read, hcb] at he ⊢
        obtain ⟨pre, c, hsplit, hc, hpre⟩ := ih3 e he
        refine ⟨(acc + sz) :: pre, c, by simp [hsplit], hc, ?_⟩
        intro x hx
        rcases List.mem_cons.mp hx with rfl | hx
        · exact hcb
        · exact hpre x hx

/-- C4: during a dependency download the progress callback is invoked after
every chunk with the cumulative number of bytes downloaded so far (the call
trace is a take of the cumulative byte counts, and is all of them when no
exception occurs); if the callback raises, every earlier invocation had
returned normally, the raising invocation is the last, and `add_dependency`
fails with that same exception. -/
theorem dependency_download_progress_callback (E : Type) (cb : ℕ → Option E)
    (chunks : List ℕ) (fs : Bool) :
    ((interruptable_read E cb 0 chunks).1
        = (cumulative_from 0 chunks).take (interruptable_read E cb 0 chunks).1.length)
      ∧ ((interruptable_read E cb 0 chunks).2 = none →
          (interruptable_read E cb 0 chunks).1 = cumulative_from 0 chunks)
      ∧ (∀ e, (interruptable_read E cb 0 chunks).2 = some e →
          ∃ pre c, (interruptable_read E cb 0 chunks).1 = pre ++ [c]
            ∧ cb c = some e ∧ ∀ x ∈ pre, cb x = none)
      ∧ (add_dependency E true none (store_via_stream E cb chunks) fs).raised
          = (interruptable_read E cb 0 chunks).2 := by
  obtain ⟨h1, h2, h3⟩ := interruptable_read_trace E cb chunks 0
  refine ⟨h1, h2, h3, ?_⟩
  cases h : (interruptable_read E cb 0 chunks).2 <;>
    simp [add_dependency, store_dependency, store_via_stream, h, remove_path]

theorem dependency_download_progress_callback_witness :
    (add_dependency ℕ true none
        (store_via_stream ℕ (fun n => if 5 ≤ n then some 0 else none) [2, 2, 2]) true).raised
      = (interruptable_read ℕ (fun n => if 5 ≤ n then some 0 else none) 0 [2, 2, 2]).2 :=
  (dependency_download_progress_callback ℕ (fun n => if 5 ≤ n then some 0 else none)
    [2, 2, 2] true).2.2.2

theorem cpuUnion_cons (p : Finset ℕ × Finset ℕ) (l : List (Finset ℕ × Finset ℕ)) :
    cpuUnion (p :: l) = p.1 ∪ cpuUnion l := rfl

theorem gpuUnion_cons (p : Finset ℕ × Finset ℕ) (l : List (Finset ℕ × Finset ℕ)) :
    gpuUnion (p :: l) = p.2 ∪ gpuUnion l := rfl

theorem cpuUnion_eraseIdx :
    ∀ (l : List (Finset ℕ × Finset ℕ)) (i : ℕ) (p : Finset ℕ × Finset ℕ),
      l.get? i = some p → cpuUnion l = p.1 ∪ cpuUnion (l.eraseIdx i) := by
  intro l
  induction l with
  | nil => intro i p h; simp at h
  | cons x t ih =>
    intro i p h
    cases i with
    | zero =>
      obtain rfl : x = p := by simpa using h
      rfl
    | succ j =>
      rw [List.get?_cons_succ] at h
      show x.1 ∪ cpuUnion t = p.1 ∪ cpuUnion (x :: t.eraseIdx j)
      rw [ih j p h, cpuUnion_cons]
      ext a
      simp only [Finset.mem_union]
      tauto

theorem gpuUnion_eraseIdx :
    ∀ (l : List (Finset ℕ × Finset ℕ)) (i : ℕ) (p : Finset ℕ × Finset ℕ),
      l.get? i = some p → gpuUnion l = p.2 ∪ gpuUnion (l.eraseIdx i) := by
  intro l
  induction l with
  | nil => intro i p h; simp at h
  | cons x t ih =>
    intro i p h
    cases i with
    | zero =>
      obtain rfl : x = p := by simpa using h
      rfl
    | succ j =>
      rw [List.get?_cons_succ] at h
      show x.2 ∪ gpuUnion t = p.2 ∪ gpuUnion (x :: t.eraseIdx j)
      rw [ih j p h, gpuUnion_cons]
      ext a
      simp only [Finset.mem_union]
      tauto

/-- Entries remaining after a release are disjoint (under the tracked
symmetric relation) from the released entry. -/
theorem pairwise_get_eraseIdx {α : Type} (R : α → α → Prop)
    (hsymm : ∀ a b, R a b → R b a) :
    ∀ (l : List α) (i : ℕ) (p : α), l.get? i = some p → l.Pairwise R →
      ∀ q ∈ l.eraseIdx i, R p q := by
  intro l
  induction l with
  | nil => intro i p h; simp at h
  | cons x t ih =>
    intro i p h hpw q hq
    rw [List.pairwise_cons] at hpw
    cases i with
    | zero =>
      obtain rfl : x = p := by simpa using h
      exact hpw.1 q hq
    | succ j =>
      rw [List.get?_cons_succ] at h
      rw [show (x :: t).eraseIdx (j + 1) = x :: t.eraseIdx j from rfl] at hq
      rcases List.mem_cons.mp hq with rfl | hq2
      · exact hsymm q p (hpw.1 p (List.get?_mem h))
      · exact ih j p h hpw.2 q hq2

/-- The invariant holds in the initial state: everything free, no live
runs. -/
theorem inv_init (total_c total_g : Finset ℕ) :
    Inv total_c total_g ⟨⟨total_c, total_g⟩, []⟩ := by
  refine ⟨?_, ?_, ?_, ?_, ?_, ?_⟩ <;> simp [cpuUnion, gpuUnion]

/-- Every allocation or release step preserves the conservation
invariant. -/
theorem stepOp_preserves (pick : Finset ℕ → ℕ) (hpick : validPick pick)
    (total_c total_g : Finset ℕ) (st : WState) (op : PoolOp)
    (hInv : Inv total_c total_g st) : Inv total_c total_g (stepOp pick st op) := by
  obtain ⟨⟨free_c, free_g⟩, live⟩ := st
  obtain ⟨hc, hg, hdc, hdg, hpc, hpg⟩ := hInv
  cases op with
  | alloc nc ng =>
    by_cases hcond : free_c.card < nc ∨ free_g.card < ng
    · have hr : allocate_cpu_and_gpu_sets pick ⟨free_c, free_g⟩ nc ng
          = ((∅, ∅), ⟨free_c, free_g⟩) := by
        simp only [allocate_cpu_and_gpu_sets, if_pos hcond]
      simp only [stepOp, hr]
      rw [if_pos ⟨Finset.card_empty, Finset.card_empty⟩]
      exact ⟨hc, hg, hdc, hdg, hpc, hpg⟩
    · have hle_c : nc ≤ free_c.card := by omega
      have hle_g : ng ≤ free_g.card := by omega
      obtain ⟨hc1, hc2, hc3⟩ := popN_spec pick hpick nc free_c hle_c
      obtain ⟨hg1, hg2, hg3⟩ := popN_spec pick hpick ng free_g hle_g
      have hr : allocate_cpu_and_gpu_sets pick ⟨free_c, free_g⟩ nc ng
          = (((popN pick nc free_c).1, (popN pick ng free_g).1),
             ⟨(popN pick nc free_c).2, (popN pick ng free_g).2⟩) := by
        simp only [allocate_cpu_and_gpu_sets, if_neg hcond]
      simp only [stepOp, hr]
      by_cases hzero : (popN pick nc free_c).1.card = 0
          ∧ (popN pick ng free_g).1.card = 0
      · rw [if_pos hzero]
        have htc : (popN pick nc free_c).1 = ∅ := Finset.card_eq_zero.mp hzero.1
        have htg : (popN pick ng free_g).1 = ∅ := Finset.card_eq_zero.mp hzero.2
        have h2c : (popN pick nc free_c).2 = free_c := by
          rw [hc3, htc, Finset.sdiff_empty]
        have h2g : (popN pick ng free_g).2 = free_g := by
          rw [hg3, htg, Finset.sdiff_empty]
        exact ⟨by rw [h2c]; exact hc, by rw [h2g]; exact hg,
          by rw [h2c]; exact hdc, by rw [h2g]; exact hdg, hpc, hpg⟩
      · rw [if_neg hzero]
        refine ⟨?_, ?_, ?_, ?_, ?_, ?_⟩
        · show (popN pick nc free_c).2 ∪ cpuUnion _ = total_c
          rw [cpuUnion_cons, ← Finset.union_assoc, hc3,
            Finset.sdiff_union_of_subset hc2, hc]
        · show (popN pick ng free_g).2 ∪ gpuUnion _ = total_g
          rw [gpuUnion_cons, ← Finset.union_assoc, hg3,
            Finset.sdiff_union_of_subset hg2, hg]
        · intro p hp
          rcases List.mem_cons.mp hp with rfl | hp2
          · rw [hc3]
            exact Finset.sdiff_disjoint
          · rw [hc3]
            exact (hdc p hp2).mono_left (Finset.sdiff_subset)
        · intro p hp
          rcases List.mem_cons.mp hp with rfl | hp2
          · rw [hg3]
            exact Finset.sdiff_disjoint
          · rw [hg3]
            exact (hdg p hp2).mono_left (Finset.sdiff_subset)
        · rw [List.pairwise_cons]
          exact ⟨fun q hq => (hdc q hq).mono_left hc2, hpc⟩
        · rw [List.pairwise_cons]
          exact ⟨fun q hq => (hdg q hq).mono_left hg2, hpg⟩
  | release i =>
    cases hgeti : live.get? i with
    | none =>
      simp only [stepOp, hgeti]
      exact ⟨hc, hg, hdc, hdg, hpc, hpg⟩
    | some p =>
      simp only [stepOp, hgeti, deallocate_cpu_and_sets]
      refine ⟨?_, ?_, ?_, ?_, ?_, ?_⟩
      · show free_c ∪ p.1 ∪ cpuUnion (live.eraseIdx i) = total_c
        rw [Finset.union_assoc, ← cpuUnion_eraseIdx live i p hgeti, hc]
      · show free_g ∪ p.2 ∪ gpuUnion (live.eraseIdx i) = total_g
        rw [Finset.union_assoc, ← gpuUnion_eraseIdx live i p hgeti, hg]
      · intro q hq
        rw [Finset.disjoint_union_left]
        exact ⟨hdc q (List.eraseIdx_subset live i hq),
          pairwise_get_eraseIdx _ (fun a b hab => hab.symm) live i p hgeti hpc q hq⟩
      · intro q hq
        rw [Finset.disjoint_union_left]
        exact ⟨hdg q (List.eraseIdx_subset live i hq),
          pairwise_get_eraseIdx _ (fun a b hab => hab.symm) live i p hgeti hpg q hq⟩
      · exact hpc.eraseIdx i
      · exact hpg.eraseIdx i

/-- C1: resource conservation.  For every sequence of allocation
(`_allocate_cpu_and_gpu_sets`, as invoked by `_run`) and release
(`_deallocate_cpu_and_sets`) calls starting from the initial pool, the free
cpu set united with the union of the live runs' allocated cpu sets equals
the total configured cpu set, the live cpu sets are pairwise disjoint and
disjoint from the free set; and the same holds for gpus. -/
theorem resource_conservation (pick : Finset ℕ → ℕ) (hpick : validPick pick)
    (total_c total_g : Finset ℕ) (ops : List PoolOp) :
    Inv total_c total_g (ops.foldl (stepOp pick) ⟨⟨total_c, total_g⟩, []⟩) := by
  have hfold : ∀ (l : List PoolOp) (st : WState), Inv total_c total_g st →
      Inv total_c total_g (l.foldl (stepOp pick) st) := by
    intro l
    induction l with
    | nil => intro st h; exact h
    | cons op rest ih =>
      intro st h
      exact ih _ (stepOp_preserves pick hpick total_c total_g st op h)
  exact hfold ops _ (inv_init total_c total_g)

theorem resource_conservation_witness :
    Inv {0, 1} {9} (List.foldl (stepOp pickMin) ⟨⟨{0, 1}, {9}⟩, []⟩
      [.alloc 1 1, .alloc 1 0, .release 0]) :=
  resource_conservation pickMin pickMin_valid {0, 1} {9}
    [.alloc 1 1, .alloc 1 0, .release 0]

/-- Trace of the `_upgrade` retry loop when the attempts from index `i`
fail `n` times and then succeed. -/
theorem upgrade_loop_trace_eq (attempts : ℕ → Option ℕ) (code : ℕ) :
    ∀ (n i : ℕ), (∀ m, m < n → attempts (i + m) = none) →
      attempts (i + n) = some code →
      upgrade_loop_trace attempts (n + 1) i
        = (List.replicate n [WorkerEvent.attemptFailed, WorkerEvent.sleep 1]).flatten
            ++ [WorkerEvent.replaceDir code, WorkerEvent.exited 123] := by
  intro n
  induction n with
  | zero =>
    intro i _ hsucc
    rw [Nat.add_zero] at hsucc
    simp [upgrade_loop_trace, hsucc]
  | succ n ih =>
    intro i hfail hsucc
    have h0 : attempts i = none := by
      have := hfail 0 (Nat.succ_pos n)
      rwa [Nat.add_zero] at this
    have hfail2 : ∀ m, m < n → attempts (i + 1 + m) = none := by
      intro m hm
      have := hfail (m + 1) (by omega)
      rwa [show i + (m + 1) = i + 1 + m by omega] at this
    have hsucc2 : attempts (i + 1 + n) = some code := by
      rwa [show i + 1 + n = i + (n + 1) by omega]
    rw [show upgrade_loop_trace attempts (n + 1 + 1) i
        = .attemptFailed :: .sleep 1 :: upgrade_loop_trace attempts (n + 1) (i + 1) by
      simp [upgrade_loop_trace, h0]]
    rw [ih (i + 1) hfail2 hsucc2, List.replicate_succ, List.flatten_cons]
    rfl

/-- C5: receipt of an upgrade message sets both the exiting flag and the
should-upgrade flag; after the main loop terminates the worker checks out,
saves state, and (since should-upgrade is set) downloads the new code
tarball, sleeping 1 second and retrying after each failed attempt, replaces
its own code directory with the tarball contents on the first success, and
exits with code 123. -/
theorem upgrade_message_and_loop (flags : WorkerFlags) (attempts : ℕ → Option ℕ)
    (n code : ℕ) (hfail : ∀ m, m < n → attempts m = none)
    (hsucc : attempts n = some code) :
    checkin_handle_message flags .upgradeMsg = ⟨true, true⟩
      ∧ run_postlude true attempts (n + 1)
          = WorkerEvent.checkout :: WorkerEvent.saveState ::
              ((List.replicate n [WorkerEvent.attemptFailed, WorkerEvent.sleep 1]).flatten
                ++ [WorkerEvent.replaceDir code, WorkerEvent.exited 123]) := by
  refine ⟨rfl, ?_⟩
  have hfail0 : ∀ m, m < n → attempts (0 + m) = none := by
    intro m hm
    rw [Nat.zero_add]
    exact hfail m hm
  have hsucc0 : attempts (0 + n) = some code := by rwa [Nat.zero_add]
  rw [run_postlude, if_pos rfl, upgrade_loop_trace_eq attempts code n 0 hfail0 hsucc0]

theorem upgrade_message_and_loop_witness :
    checkin_handle_message ⟨false, false⟩ .upgradeMsg = ⟨true, true⟩
      ∧ run_postlude true (fun i => if i < 2 then none else some 7) 3
          = [WorkerEvent.checkout, WorkerEvent.saveState,
             WorkerEvent.attemptFailed, WorkerEvent.sleep 1,
             WorkerEvent.attemptFailed, WorkerEvent.sleep 1,
             WorkerEvent.replaceDir 7, WorkerEvent.exited 123] := by
  obtain ⟨h1, h2⟩ := upgrade_message_and_loop ⟨false, false⟩
    (fun i => if i < 2 then none else some 7) 2 7 (by decide) (by decide)
  exact ⟨h1, by rw [h2]; rfl⟩

/-- The number of iterations of the main loop equals the number of check-in
outcomes processed: a failed check-in never breaks the loop. -/
theorem checkin_loop_length : ∀ (outcomes : List Bool) (last : Bool),
    (checkin_loop last outcomes).length = outcomes.length := by
  intro outcomes
  induction outcomes with
  | nil => intro last; rfl
  | cons ok rest ih => intro last; simp [checkin_loop, ih]

/-- Closed form for iteration `i` of the main loop, with the incoming
`_last_checkin_successful` flag generalised. -/
theorem checkin_loop_getD :
    ∀ (outcomes : List Bool) (last : Bool) (i : ℕ), i < outcomes.length →
      (checkin_loop last outcomes).getD i ⟨false, false, false⟩
        = ⟨outcomes.getD i false,
           outcomes.getD i false
             && !(if i = 0 then last else outcomes.getD (i - 1) false),
           !(outcomes.getD i false)⟩ := by
  intro outcomes
  induction outcomes with
  | nil => intro last i h; simp at h
  | cons ok rest ih =>
    intro last i h
    cases i with
    | zero => simp [checkin_loop]
    | succ j =>
      have hj : j < rest.length := by simpa using h
      have hgd : (ok :: rest).getD j false
          = if j = 0 then ok else rest.getD (j - 1) false := by
        cases j with
        | zero => simp
        | succ k => simp
      show (checkin_loop ok rest).getD j ⟨false, false, false⟩ = _
      rw [ih ok j hj, List.getD_cons_succ, if_neg (Nat.succ_ne_zero j),
        Nat.succ_sub_one, hgd]

/-- C8: every failed check-in is followed by a 1-second sleep and the loop
goes on to the next attempt (one iteration per outcome, with `slept_one` set
exactly on failures); and the restored-connectivity message is logged on a
successful check-in iff the tracked flag was false, i.e. iff this is the
first attempt or the previous attempt failed — so success after a failure
episode is surfaced exactly once. -/
theorem checkin_retry_and_logging (outcomes : List Bool) (i : ℕ)
    (h : i < outcomes.length) :
    (checkin_loop false outcomes).length = outcomes.length
      ∧ ((checkin_loop false outcomes).getD i ⟨false, false, false⟩).checkin_succeeded
          = outcomes.getD i false
      ∧ ((checkin_loop false outcomes).getD i ⟨false, false, false⟩).slept_one
          = !(outcomes.getD i false)
      ∧ ((checkin_loop false outcomes).getD i ⟨false, false, false⟩).logged_connected
          = (outcomes.getD i false
              && (decide (i = 0) || !(outcomes.getD (i - 1) false))) := by
  rw [checkin_loop_getD outcomes false i h]
  refine ⟨checkin_loop_length outcomes false, rfl, rfl, ?_⟩
  cases i with
  | zero => simp
  | succ j => simp

theorem checkin_retry_and_logging_witness :
    (checkin_loop false [false, true, true]).length = 3
      ∧ ((checkin_loop false [false, true, true]).getD 1
          ⟨false, false, false⟩).checkin_succeeded = true
      ∧ ((checkin_loop false [false, true, true]).getD 1
          ⟨false, false, false⟩).slept_one = false
      ∧ ((checkin_loop false [false, true, true]).getD 1
          ⟨false, false, false⟩).logged_connected = true := by
  obtain ⟨h1, h2, h3, h4⟩ := checkin_retry_and_logging [false, true, true] 1 (by decide)
  exact ⟨h1, by rw [h2]; rfl, by rw [h3]; rfl, by rw [h4]; rfl⟩

end CodalabWorker
